import Mathlib

/-!
Verification of the pastryjoy bakery-management backend domain logic.

The Python sources under `src/backend/src` are shallowly embedded here:
`Decimal` values become exact rationals (`ℚ`), `UUID` identifiers become
`Nat`, Python dicts become functions into `Option`, and code that can raise
`ValueError` returns `Except String _`.  Each definition mirrors the source
function of the same name; spec-side formulas get separate, clearly named
definitions so that the code-side definitions can be compared against them.
-/

namespace PastryJoy

/-- Identifier type standing for Python `UUID` values. -/
abbrev UUID := Nat

/-- Money value object (`domain/value_objects/money.py`): an exact decimal
amount together with a currency code string. -/
structure Money where
  amount : ℚ
  currency : String
deriving DecidableEq, Repr

/-- Checked construction of `Money`, mirroring `Money.__post_init__`:
a negative amount or an empty currency string raises `ValueError`.
The Python default currency is `"USD"`; call sites that rely on the default
pass `"USD"` explicitly here. -/
def Money.mk? (amount : ℚ) (currency : String) : Except String Money :=
  if amount < 0 then Except.error "Money amount cannot be negative"
  else if currency = "" then Except.error "Currency code is required"
  else Except.ok ⟨amount, currency⟩

/-- Mirrors `Money.__add__`: currencies must match, and the result is
re-validated by the `Money` constructor. -/
def Money.add (a b : Money) : Except String Money :=
  if a.currency ≠ b.currency then
    Except.error "Cannot add money with different currencies"
  else Money.mk? (a.amount + b.amount) a.currency

/-- Mirrors `Money.__sub__`: currencies must match and the difference must
not be negative. -/
def Money.sub (a b : Money) : Except String Money :=
  if a.currency ≠ b.currency then
    Except.error "Cannot subtract money with different currencies"
  else if a.amount - b.amount < 0 then
    Except.error "Subtraction would result in negative money"
  else Money.mk? (a.amount - b.amount) a.currency

/-- Mirrors `Money.__mul__`: multiply the amount, keep the currency; the
result is re-validated by the `Money` constructor (so a negative product
raises). -/
def Money.mul (m : Money) (k : ℚ) : Except String Money :=
  Money.mk? (m.amount * k) m.currency

/-- A `Money` value that the Python constructor would have accepted:
non-negative amount and non-empty currency. -/
def Money.Valid (m : Money) : Prop := 0 ≤ m.amount ∧ m.currency ≠ ""

instance (m : Money) : Decidable m.Valid := by
  unfold Money.Valid; infer_instance

lemma Money.mk?_ok {a : ℚ} {c : String} (h0 : 0 ≤ a) (hc : c ≠ "") :
    Money.mk? a c = Except.ok ⟨a, c⟩ := by
  unfold Money.mk?
  rw [if_neg (not_lt.mpr h0), if_neg hc]

lemma Money.add_ok {x y : Money} (hcur : x.currency = y.currency)
    (hne : x.currency ≠ "") (hx : 0 ≤ x.amount) (hy : 0 ≤ y.amount) :
    Money.add x y = Except.ok ⟨x.amount + y.amount, x.currency⟩ := by
  unfold Money.add
  rw [if_neg (by simp [hcur]), Money.mk?_ok (add_nonneg hx hy) hne]

lemma Money.mul_ok {x : Money} {k : ℚ} (hne : x.currency ≠ "")
    (hx : 0 ≤ x.amount) (hk : 0 ≤ k) :
    Money.mul x k = Except.ok ⟨x.amount * k, x.currency⟩ := by
  unfold Money.mul
  rw [Money.mk?_ok (mul_nonneg hx hk) hne]

/-- Recipe ingredient relationship (`domain/entities/recipe_ingredient.py`);
its constructor requires a positive quantity. -/
structure RecipeIngredient where
  recipe_id : UUID
  ingredient_id : UUID
  quantity : ℚ
deriving DecidableEq, Repr

/-- Recipe entity (`domain/entities/recipe.py`); irrelevant fields
(`instructions`, timestamps) are omitted. -/
structure Recipe where
  name : String
  ingredients : List RecipeIngredient
deriving DecidableEq, Repr

/-- The body of the loop in `Recipe.calculate_cost`: look the ingredient up
in the cost dict; a missing cost is skipped, a present one contributes
`cost * quantity` added to the running total. -/
def ingredientCostStep (ingredient_costs : UUID → Option Money)
    (total : Money) (ri : RecipeIngredient) : Except String Money :=
  match ingredient_costs ri.ingredient_id with
  | some ingredient_cost => do
      let part ← Money.mul ingredient_cost ri.quantity
      Money.add total part
  | none => Except.ok total

/-- Mirrors `Recipe.calculate_cost`: `Money(Decimal("0"))` (with the default
`"USD"` currency) for an empty ingredient list, otherwise the loop
accumulating `cost * quantity` from `Money(Decimal("0"))`. -/
def Recipe.calculate_cost (r : Recipe)
    (ingredient_costs : UUID → Option Money) : Except String Money :=
  if r.ingredients = [] then Except.ok ⟨0, "USD"⟩
  else List.foldlM (ingredientCostStep ingredient_costs) ⟨0, "USD"⟩ r.ingredients

/-- Spec-side formula: the contribution of one recipe ingredient to the
recipe cost — `cost_per_unit × quantity`, and `0` when no cost record
exists for the ingredient. -/
def ingredientContribution (ingredient_costs : UUID → Option Money)
    (ri : RecipeIngredient) : ℚ :=
  match ingredient_costs ri.ingredient_id with
  | some c => c.amount * ri.quantity
  | none => 0

/-- Spec-side formula: `Σ (ingredient current cost_per_unit × quantity)`
over a list of recipe ingredients. -/
def recipeCostSum (ingredient_costs : UUID → Option Money)
    (l : List RecipeIngredient) : ℚ :=
  (l.map (ingredientContribution ingredient_costs)).sum

/-- A cost mapping is valid when every stored `Money` has a non-negative
amount and the default `"USD"` currency (the currency the accumulator in
the source starts from). -/
def ValidCosts (costs : UUID → Option Money) : Prop :=
  ∀ i c, costs i = some c → 0 ≤ c.amount ∧ c.currency = "USD"

lemma usd_ne_empty : ("USD" : String) ≠ "" := by decide

lemma recipeCostSum_nil (costs : UUID → Option Money) :
    recipeCostSum costs [] = 0 := rfl

lemma recipeCostSum_cons (costs : UUID → Option Money)
    (ri : RecipeIngredient) (l : List RecipeIngredient) :
    recipeCostSum costs (ri :: l) =
      ingredientContribution costs ri + recipeCostSum costs l := by
  simp [recipeCostSum]

lemma ingredientContribution_nonneg {costs : UUID → Option Money}
    (hc : ValidCosts costs) {ri : RecipeIngredient} (hq : 0 ≤ ri.quantity) :
    0 ≤ ingredientContribution costs ri := by
  unfold ingredientContribution
  cases h : costs ri.ingredient_id with
  | none => exact le_refl 0
  | some c => exact mul_nonneg (hc _ _ h).1 hq

lemma recipeCostSum_nonneg {costs : UUID → Option Money}
    (hc : ValidCosts costs) {l : List RecipeIngredient}
    (hq : ∀ ri ∈ l, 0 ≤ ri.quantity) :
    0 ≤ recipeCostSum costs l := by
  induction l with
  | nil => simp [recipeCostSum_nil]
  | cons ri rest ih =>
      rw [recipeCostSum_cons]
      have h1 := ingredientContribution_nonneg hc (hq ri (List.mem_cons_self ri rest))
      have h2 := ih (fun x hx => hq x (List.mem_cons_of_mem ri hx))
      linarith

lemma foldlM_ingredientCostStep {costs : UUID → Option Money}
    (hc : ValidCosts costs) :
    ∀ (l : List RecipeIngredient), (∀ ri ∈ l, 0 ≤ ri.quantity) →
      ∀ (t : ℚ), 0 ≤ t →
      List.foldlM (ingredientCostStep costs) (⟨t, "USD"⟩ : Money) l =
        Except.ok ⟨t + recipeCostSum costs l, "USD"⟩ := by
  intro l
  induction l with
  | nil =>
      intro _ t ht
      show pure (⟨t, "USD"⟩ : Money) = Except.ok ⟨t + recipeCostSum costs [], "USD"⟩
      rw [recipeCostSum_nil, add_zero]
      rfl
  | cons ri rest ih =>
      intro hq t ht
      have hqr : 0 ≤ ri.quantity := hq ri (List.mem_cons_self ri rest)
      have hqrest : ∀ x ∈ rest, 0 ≤ x.quantity :=
        fun x hx => hq x (List.mem_cons_of_mem ri hx)
      rw [List.foldlM]
      cases hcost : costs ri.ingredient_id with
      | none =>
          have hstep : ingredientCostStep costs ⟨t, "USD"⟩ ri = Except.ok ⟨t, "USD"⟩ := by
            unfold ingredientCostStep
            rw [hcost]
          rw [hstep]
          show List.foldlM (ingredientCostStep costs) (⟨t, "USD"⟩ : Money) rest = _
          rw [ih hqrest t ht, recipeCostSum_cons]
          have : ingredientContribution costs ri = 0 := by
            unfold ingredientContribution
            rw [hcost]
          rw [this]
          norm_num
      | some c =>
          obtain ⟨hca, hcc⟩ := hc _ _ hcost
          have hmul : Money.mul c ri.quantity =
              Except.ok ⟨c.amount * ri.quantity, c.currency⟩ :=
            Money.mul_ok (by rw [hcc]; decide) hca hqr
          have hstep : ingredientCostStep costs ⟨t, "USD"⟩ ri =
              Except.ok ⟨t + c.amount * ri.quantity, "USD"⟩ := by
            unfold ingredientCostStep
            rw [hcost]
            show (do
                let part ← Money.mul c ri.quantity
                Money.add (⟨t, "USD"⟩ : Money) part) = _
            rw [hmul]
            show Money.add (⟨t, "USD"⟩ : Money) ⟨c.amount * ri.quantity, c.currency⟩ = _
            exact Money.add_ok hcc.symm usd_ne_empty ht (mul_nonneg hca hqr)
          rw [hstep]
          show List.foldlM (ingredientCostStep costs)
              (⟨t + c.amount * ri.quantity, "USD"⟩ : Money) rest = _
          rw [ih hqrest _ (add_nonneg ht (mul_nonneg hca hqr)), recipeCostSum_cons]
          have : ingredientContribution costs ri = c.amount * ri.quantity := by
            unfold ingredientContribution
            rw [hcost]
          rw [this]
          norm_num [add_assoc]

/-- The recipe cost computed by the source equals the spec-side sum, for
any recipe whose ingredient quantities are non-negative and any valid
USD cost mapping. -/
lemma Recipe.calculate_cost_eq_sum (r : Recipe) {costs : UUID → Option Money}
    (hc : ValidCosts costs) (hq : ∀ ri ∈ r.ingredients, 0 ≤ ri.quantity) :
    Recipe.calculate_cost r costs =
      Except.ok ⟨recipeCostSum costs r.ingredients, "USD"⟩ := by
  unfold Recipe.calculate_cost
  by_cases h : r.ingredients = []
  · rw [if_pos h, h, recipeCostSum_nil]
  · rw [if_neg h, foldlM_ingredientCostStep hc r.ingredients hq 0 (le_refl 0)]
    norm_num

/-- Helper updating the quantity of the first ingredient with the given id,
`none` when no ingredient matches; this is the loop of
`Recipe.update_ingredient_quantity` in the source (the quantity is assigned
directly, bypassing the constructor validation). -/
def updateQuantityFirst (iid : UUID) (q : ℚ) :
    List RecipeIngredient → Option (List RecipeIngredient)
  | [] => none
  | ri :: rest =>
    if ri.ingredient_id = iid then some ({ ri with quantity := q } :: rest)
    else
      match updateQuantityFirst iid q rest with
      | some rest2 => some (ri :: rest2)
      | none => none

/-- Mirrors `Recipe.update_ingredient_quantity`: update the first matching
ingredient in place, raise `ValueError` when the ingredient is absent. -/
def Recipe.update_ingredient_quantity (r : Recipe) (iid : UUID) (q : ℚ) :
    Except String Recipe :=
  match updateQuantityFirst iid q r.ingredients with
  | some l => Except.ok { r with ingredients := l }
  | none => Except.error "Ingredient not found in recipe"

/-- Product recipe relationship (`domain/entities/product.py`); its
constructor requires a positive quantity. -/
structure ProductRecipe where
  recipe_id : UUID
  quantity : ℚ
deriving DecidableEq, Repr

/-- Product entity (`domain/entities/product.py`); its constructor requires
`0 ≤ variable_costs_percentage ≤ 100` and `0 ≤ profit_margin_percentage`. -/
structure Product where
  name : String
  recipes : List ProductRecipe
  fixed_costs : Money
  variable_costs_percentage : ℚ
  profit_margin_percentage : ℚ
deriving DecidableEq, Repr

/-- The body of the loop in `Product.calculate_cost`: look the recipe cost
up; a missing cost is skipped, a present one contributes
`recipe_cost * quantity` added to the running total. -/
def productRecipeCostStep (recipe_costs : UUID → Option Money)
    (total : Money) (pr : ProductRecipe) : Except String Money :=
  match recipe_costs pr.recipe_id with
  | some recipe_cost => do
      let part ← Money.mul recipe_cost pr.quantity
      Money.add total part
  | none => Except.ok total

/-- Mirrors `Product.calculate_cost`:
`(recipe costs + fixed costs) * (1 + variable%) * (1 + profit%)`, with the
recipe-cost loop skipped entirely (base cost = fixed costs) when the
product has no recipes. -/
def Product.calculate_cost (p : Product)
    (recipe_costs : UUID → Option Money) : Except String Money := do
  let base_cost ←
    if p.recipes = [] then Except.ok p.fixed_costs
    else do
      let recipe_total ← List.foldlM (productRecipeCostStep recipe_costs)
        (⟨0, "USD"⟩ : Money) p.recipes
      Money.add recipe_total p.fixed_costs
  let cost_with_variable ← Money.mul base_cost
    (1 + p.variable_costs_percentage / 100)
  Money.mul cost_with_variable (1 + p.profit_margin_percentage / 100)

/-- Spec-side formula: the contribution of one product recipe to the base
cost — `recipe cost × quantity`, `0` for a recipe id absent from the
mapping. -/
def productRecipeContribution (recipe_costs : UUID → Option Money)
    (pr : ProductRecipe) : ℚ :=
  match recipe_costs pr.recipe_id with
  | some c => c.amount * pr.quantity
  | none => 0

/-- Spec-side formula: `Σ (recipe cost × recipe quantity)` over a product's
recipe list. -/
def productRecipeSum (recipe_costs : UUID → Option Money)
    (l : List ProductRecipe) : ℚ :=
  (l.map (productRecipeContribution recipe_costs)).sum

lemma productRecipeSum_nil (costs : UUID → Option Money) :
    productRecipeSum costs [] = 0 := rfl

lemma productRecipeSum_cons (costs : UUID → Option Money)
    (pr : ProductRecipe) (l : List ProductRecipe) :
    productRecipeSum costs (pr :: l) =
      productRecipeContribution costs pr + productRecipeSum costs l := by
  simp [productRecipeSum]

lemma foldlM_productRecipeCostStep {costs : UUID → Option Money}
    (hc : ValidCosts costs) :
    ∀ (l : List ProductRecipe), (∀ pr ∈ l, 0 ≤ pr.quantity) →
      ∀ (t : ℚ), 0 ≤ t →
      List.foldlM (productRecipeCostStep costs) (⟨t, "USD"⟩ : Money) l =
        Except.ok ⟨t + productRecipeSum costs l, "USD"⟩ := by
  intro l
  induction l with
  | nil =>
      intro _ t ht
      show pure (⟨t, "USD"⟩ : Money) = Except.ok ⟨t + productRecipeSum costs [], "USD"⟩
      rw [productRecipeSum_nil, add_zero]
      rfl
  | cons pr rest ih =>
      intro hq t ht
      have hqr : 0 ≤ pr.quantity := hq pr (List.mem_cons_self pr rest)
      have hqrest : ∀ x ∈ rest, 0 ≤ x.quantity :=
        fun x hx => hq x (List.mem_cons_of_mem pr hx)
      rw [List.foldlM]
      cases hcost : costs pr.recipe_id with
      | none =>
          have hstep : productRecipeCostStep costs ⟨t, "USD"⟩ pr = Except.ok ⟨t, "USD"⟩ := by
            unfold productRecipeCostStep
            rw [hcost]
          rw [hstep]
          show List.foldlM (productRecipeCostStep costs) (⟨t, "USD"⟩ : Money) rest = _
          rw [ih hqrest t ht, productRecipeSum_cons]
          have : productRecipeContribution costs pr = 0 := by
            unfold productRecipeContribution
            rw [hcost]
          rw [this]
          norm_num
      | some c =>
          obtain ⟨hca, hcc⟩ := hc _ _ hcost
          have hmul : Money.mul c pr.quantity =
              Except.ok ⟨c.amount * pr.quantity, c.currency⟩ :=
            Money.mul_ok (by rw [hcc]; decide) hca hqr
          have hstep : productRecipeCostStep costs ⟨t, "USD"⟩ pr =
              Except.ok ⟨t + c.amount * pr.quantity, "USD"⟩ := by
            unfold productRecipeCostStep
            rw [hcost]
            show (do
                let part ← Money.mul c pr.quantity
                Money.add (⟨t, "USD"⟩ : Money) part) = _
            rw [hmul]
            show Money.add (⟨t, "USD"⟩ : Money) ⟨c.amount * pr.quantity, c.currency⟩ = _
            exact Money.add_ok hcc.symm usd_ne_empty ht (mul_nonneg hca hqr)
          rw [hstep]
          show List.foldlM (productRecipeCostStep costs)
              (⟨t + c.amount * pr.quantity, "USD"⟩ : Money) rest = _
          rw [ih hqrest _ (add_nonneg ht (mul_nonneg hca hqr)), productRecipeSum_cons]
          have : productRecipeContribution costs pr = c.amount * pr.quantity := by
            unfold productRecipeContribution
            rw [hcost]
          rw [this]
          norm_num [add_assoc]

lemma productRecipeSum_nonneg {costs : UUID → Option Money}
    (hc : ValidCosts costs) {l : List ProductRecipe}
    (hq : ∀ pr ∈ l, 0 ≤ pr.quantity) :
    0 ≤ productRecipeSum costs l := by
  induction l with
  | nil => simp [productRecipeSum_nil]
  | cons pr rest ih =>
      rw [productRecipeSum_cons]
      have h1 : 0 ≤ productRecipeContribution costs pr := by
        unfold productRecipeContribution
        cases h : costs pr.recipe_id with
        | none => exact le_refl 0
        | some c => exact mul_nonneg (hc _ _ h).1 (hq pr (List.mem_cons_self pr rest))
      have h2 := ih (fun x hx => hq x (List.mem_cons_of_mem pr hx))
      linarith

/-- Order status enumeration (`domain/entities/order.py`). -/
inductive OrderStatus
  | pending
  | confirmed
  | in_progress
  | completed
  | cancelled
deriving DecidableEq, Repr

/-- The string value of each `OrderStatus` enum member, as in the Python
`str`-valued enum. -/
def OrderStatus.value : OrderStatus → String
  | .pending => "pending"
  | .confirmed => "confirmed"
  | .in_progress => "in_progress"
  | .completed => "completed"
  | .cancelled => "cancelled"

/-- Mirrors the Python `OrderStatus(s)` enum lookup on a string value. -/
def OrderStatus.ofString (s : String) : Option OrderStatus :=
  if s = "pending" then some .pending
  else if s = "confirmed" then some .confirmed
  else if s = "in_progress" then some .in_progress
  else if s = "completed" then some .completed
  else if s = "cancelled" then some .cancelled
  else none

/-- Order item entity (`domain/entities/order_item.py`); its constructor
requires a positive quantity. -/
structure OrderItem where
  order_id : UUID
  product_id : UUID
  quantity : ℚ
  unit_price : Money
deriving DecidableEq, Repr

/-- Mirrors `OrderItem.calculate_total`: `unit_price * quantity`. -/
def OrderItem.calculate_total (item : OrderItem) : Except String Money :=
  Money.mul item.unit_price item.quantity

/-- Order entity (`domain/entities/order.py`). -/
structure Order where
  customer_name : String
  customer_email : String
  items : List OrderItem
  status : OrderStatus
  notes : String
  created_by_user_id : UUID
deriving DecidableEq, Repr

/-- The body of the loop in `Order.calculate_total`:
`total = total + item.calculate_total()`. -/
def orderTotalStep (total : Money) (item : OrderItem) : Except String Money := do
  let part ← OrderItem.calculate_total item
  Money.add total part

/-- Mirrors `Order.calculate_total`: `Money(Decimal("0"))` for an order with
no items, otherwise the sum of the item totals accumulated from
`Money(Decimal("0"))`. -/
def Order.calculate_total (o : Order) : Except String Money :=
  if o.items = [] then Except.ok ⟨0, "USD"⟩
  else List.foldlM orderTotalStep ⟨0, "USD"⟩ o.items

/-- Mirrors `Order.confirm`: only a pending order with at least one item can
be confirmed; the status assignment happens after both checks, so on error
the order is left untouched. -/
def Order.confirm (o : Order) : Except String Order :=
  if o.status ≠ OrderStatus.pending then
    Except.error "Only pending orders can be confirmed"
  else if o.items = [] then
    Except.error "Cannot confirm order without items"
  else Except.ok { o with status := OrderStatus.confirmed }

/-- Mirrors `Order.cancel`: completed and already-cancelled orders cannot be
cancelled; the status assignment happens after both checks, so on error the
order is left untouched. -/
def Order.cancel (o : Order) : Except String Order :=
  if o.status = OrderStatus.completed then
    Except.error "Cannot cancel completed orders"
  else if o.status = OrderStatus.cancelled then
    Except.error "Order is already cancelled"
  else Except.ok { o with status := OrderStatus.cancelled }

/-- Spec-side formula: the contribution of one order item to the order
total, `unit_price × quantity`. -/
def orderItemContribution (item : OrderItem) : ℚ :=
  item.unit_price.amount * item.quantity

/-- Spec-side formula: `Σ (item.quantity × item.unit_price)` over the
order's items. -/
def orderTotalSum (l : List OrderItem) : ℚ :=
  (l.map orderItemContribution).sum

lemma orderTotalSum_nil : orderTotalSum [] = 0 := rfl

lemma orderTotalSum_cons (item : OrderItem) (l : List OrderItem) :
    orderTotalSum (item :: l) = orderItemContribution item + orderTotalSum l := by
  simp [orderTotalSum]

/-- An order item the Python constructors would have accepted, with the
default `"USD"` currency on its price. -/
def OrderItem.ValidUSD (item : OrderItem) : Prop :=
  0 ≤ item.quantity ∧ 0 ≤ item.unit_price.amount ∧ item.unit_price.currency = "USD"

lemma foldlM_orderTotalStep :
    ∀ (l : List OrderItem), (∀ item ∈ l, item.ValidUSD) →
      ∀ (t : ℚ), 0 ≤ t →
      List.foldlM orderTotalStep (⟨t, "USD"⟩ : Money) l =
        Except.ok ⟨t + orderTotalSum l, "USD"⟩ := by
  intro l
  induction l with
  | nil =>
      intro _ t ht
      show pure (⟨t, "USD"⟩ : Money) = Except.ok ⟨t + orderTotalSum [], "USD"⟩
      rw [orderTotalSum_nil, add_zero]
      rfl
  | cons item rest ih =>
      intro hv t ht
      obtain ⟨hq, hpa, hpc⟩ := hv item (List.mem_cons_self item rest)
      have hvrest : ∀ x ∈ rest, x.ValidUSD :=
        fun x hx => hv x (List.mem_cons_of_mem item hx)
      rw [List.foldlM]
      have hmul : OrderItem.calculate_total item =
          Except.ok ⟨item.unit_price.amount * item.quantity, item.unit_price.currency⟩ :=
        Money.mul_ok (by rw [hpc]; decide) hpa hq
      have hstep : orderTotalStep ⟨t, "USD"⟩ item =
          Except.ok ⟨t + orderItemContribution item, "USD"⟩ := by
        unfold orderTotalStep
        rw [hmul]
        show Money.add (⟨t, "USD"⟩ : Money)
            ⟨item.unit_price.amount * item.quantity, item.unit_price.currency⟩ = _
        exact Money.add_ok hpc.symm usd_ne_empty ht (mul_nonneg hpa hq)
      rw [hstep]
      show List.foldlM orderTotalStep (⟨t + orderItemContribution item, "USD"⟩ : Money) rest = _
      have hcontrib : 0 ≤ orderItemContribution item := mul_nonneg hpa hq
      rw [ih hvrest _ (add_nonneg ht hcontrib), orderTotalSum_cons]
      norm_num [add_assoc]

/-- Mirrors the `update_order_status` route
(`presentation/api/routes/orders.py`): fetch the order (404 when absent),
parse the status string through the `OrderStatus` enum, and assign it
directly — no `confirm`/`cancel` guard is consulted. -/
def update_order_status (stored : Option Order) (statusStr : String) :
    Except String Order :=
  match stored with
  | none => Except.error "Order not found"
  | some o =>
      match OrderStatus.ofString statusStr with
      | some st => Except.ok { o with status := st }
      | none => Except.error "invalid status value"

/-- UTF-8 encoding of a single Unicode scalar value, 1 to 4 bytes
(standard encoding, as produced by Python `str.encode("utf-8")`). -/
def utf8EncodeChar (c : Char) : List Nat :=
  let n := c.toNat
  if n < 0x80 then [n]
  else if n < 0x800 then [0xC0 + n / 64, 0x80 + n % 64]
  else if n < 0x10000 then
    [0xE0 + n / 4096, 0x80 + (n / 64) % 64, 0x80 + n % 64]
  else
    [0xF0 + n / 262144, 0x80 + (n / 4096) % 64, 0x80 + (n / 64) % 64, 0x80 + n % 64]

/-- UTF-8 encoding of a string (modelled as its list of characters). -/
def utf8Encode (s : List Char) : List Nat :=
  (s.map utf8EncodeChar).flatten

/-- Whether a byte is a UTF-8 continuation byte (`0x80..0xBF`). -/
def isCont (b : Nat) : Bool := 0x80 ≤ b && b < 0xC0

/-- Valid first-continuation ranges for three-byte leads (rules out overlong
forms after `0xE0` and surrogates after `0xED`). -/
def cont3ok (b0 b1 : Nat) : Bool :=
  if b0 = 0xE0 then 0xA0 ≤ b1 && b1 < 0xC0
  else if b0 = 0xED then 0x80 ≤ b1 && b1 < 0xA0
  else isCont b1

/-- Valid first-continuation ranges for four-byte leads (rules out overlong
forms after `0xF0` and out-of-range values after `0xF4`). -/
def cont4ok (b0 b1 : Nat) : Bool :=
  if b0 = 0xF0 then 0x90 ≤ b1 && b1 < 0xC0
  else if b0 = 0xF4 then 0x80 ≤ b1 && b1 < 0x90
  else isCont b1

/-- UTF-8 decoding with Python's `errors="ignore"` handling: malformed or
incomplete sequences are dropped and decoding continues at the next byte
that could start a sequence. -/
def utf8DecodeIgnore : List Nat → List Char
  | [] => []
  | b0 :: rest =>
    if b0 < 0x80 then Char.ofNat b0 :: utf8DecodeIgnore rest
    else if b0 < 0xC2 then utf8DecodeIgnore rest
    else if b0 < 0xE0 then
      match rest with
      | [] => []
      | b1 :: rest1 =>
        if isCont b1 then
          Char.ofNat ((b0 - 0xC0) * 64 + (b1 - 0x80)) :: utf8DecodeIgnore rest1
        else utf8DecodeIgnore (b1 :: rest1)
    else if b0 < 0xF0 then
      match rest with
      | [] => []
      | b1 :: rest1 =>
        if cont3ok b0 b1 then
          match rest1 with
          | [] => []
          | b2 :: rest2 =>
            if isCont b2 then
              Char.ofNat ((b0 - 0xE0) * 4096 + (b1 - 0x80) * 64 + (b2 - 0x80)) ::
                utf8DecodeIgnore rest2
            else utf8DecodeIgnore (b2 :: rest2)
        else utf8DecodeIgnore (b1 :: rest1)
    else if b0 < 0xF5 then
      match rest with
      | [] => []
      | b1 :: rest1 =>
        if cont4ok b0 b1 then
          match rest1 with
          | [] => []
          | b2 :: rest2 =>
            if isCont b2 then
              match rest2 with
              | [] => []
              | b3 :: rest3 =>
                if isCont b3 then
                  Char.ofNat ((b0 - 0xF0) * 262144 + (b1 - 0x80) * 4096 +
                      (b2 - 0x80) * 64 + (b3 - 0x80)) :: utf8DecodeIgnore rest3
                else utf8DecodeIgnore (b3 :: rest3)
            else utf8DecodeIgnore (b2 :: rest2)
        else utf8DecodeIgnore (b1 :: rest1)
    else utf8DecodeIgnore rest

/-- Mirrors the preprocessing in `get_password_hash`
(`infrastructure/security/auth.py`): encode to UTF-8, and when the encoding
exceeds 72 bytes replace the password by
`password_bytes[:72].decode("utf-8", errors="ignore")`.  The salted bcrypt
hash applied afterwards is treated as an opaque external function, so this
definition returns the exact string handed to it. -/
def get_password_hash_input (password : List Char) : List Char :=
  let password_bytes := utf8Encode password
  if password_bytes.length > 72 then utf8DecodeIgnore (password_bytes.take 72)
  else password

/-- User roles (`domain/value_objects/user_role.py`). -/
inductive UserRole
  | admin
  | user
deriving DecidableEq, Repr

/-- The string value of each `UserRole` enum member. -/
def UserRole.value : UserRole → String
  | .admin => "admin"
  | .user => "user"

/-- User entity (`domain/entities/user.py`). -/
structure User where
  email : String
  username : String
  hashed_password : String
  role : UserRole
  is_active : Bool
  full_name : Option String
deriving DecidableEq, Repr

/-- Checked construction of `User`, mirroring `User.__post_init__`: email
and username must be non-empty and the email must contain an `@`. -/
def User.mk? (email username hashed_password : String) (role : UserRole)
    (is_active : Bool) (full_name : Option String) : Except String User :=
  if email = "" then Except.error "Email is required"
  else if username = "" then Except.error "Username is required"
  else if ¬ ('@' ∈ email.data) then Except.error "Invalid email format"
  else Except.ok ⟨email, username, hashed_password, role, is_active, full_name⟩

/-- Registration request DTO (`application/dtos/auth_dto.py`); it has no
role field at all. -/
structure RegisterRequestDTO where
  email : String
  username : String
  password : String
  full_name : Option String

/-- The environment of `RegisterUserUseCase`: the repository existence
checks and the external salted-hash function wrapped by
`get_password_hash`. -/
structure RegisterUserDeps where
  email_exists : String → Bool
  username_exists : String → Bool
  hashFn : String → String

/-- Mirrors `RegisterUserUseCase.execute`, returning the user entity handed
to `user_repository.create` (which stores and returns it): duplicate email
or username raise, and otherwise the user is built with the hard-coded
`role=UserRole.USER` and the `is_active=True` default. -/
def RegisterUserUseCase.execute (deps : RegisterUserDeps)
    (dto : RegisterRequestDTO) : Except String User :=
  if deps.email_exists dto.email then Except.error "Email already registered"
  else if deps.username_exists dto.username then Except.error "Username already taken"
  else
    User.mk? dto.email dto.username (deps.hashFn dto.password)
      UserRole.user true dto.full_name

lemma exceptOkBind {α β : Type} (a : α) (f : α → Except String β) :
    (Except.ok a : Except String α) >>= f = f a := rfl

/-- C5: Money addition and subtraction raise whenever the currencies
differ; with matching currencies addition returns exactly `amount1 +
amount2` and subtraction exactly `amount1 - amount2` (raising when the
difference would be negative), the shared currency preserved. -/
theorem money_add_sub_spec (a b : Money) (ha : a.Valid) (hb : b.Valid) :
    (a.currency ≠ b.currency →
      (∃ msg, Money.add a b = Except.error msg) ∧
      (∃ msg, Money.sub a b = Except.error msg)) ∧
    (a.currency = b.currency →
      Money.add a b = Except.ok ⟨a.amount + b.amount, a.currency⟩ ∧
      (b.amount ≤ a.amount →
        Money.sub a b = Except.ok ⟨a.amount - b.amount, a.currency⟩) ∧
      (a.amount < b.amount → ∃ msg, Money.sub a b = Except.error msg)) := by
  obtain ⟨ha0, hane⟩ := ha
  obtain ⟨hb0, _⟩ := hb
  constructor
  · intro hne
    constructor
    · exact ⟨_, by unfold Money.add; rw [if_pos hne]⟩
    · exact ⟨_, by unfold Money.sub; rw [if_pos hne]⟩
  · intro hcur
    refine ⟨Money.add_ok hcur hane ha0 hb0, ?_, ?_⟩
    · intro hle
      unfold Money.sub
      rw [if_neg (by simp [hcur]), if_neg (not_lt.mpr (by linarith)),
        Money.mk?_ok (by linarith) hane]
    · intro hlt
      exact ⟨_, by unfold Money.sub; rw [if_neg (by simp [hcur]), if_pos (by linarith)]⟩

/-- Witness for C5 at concrete inputs: USD 7 plus USD 3 is USD 10. -/
theorem money_add_sub_spec_witness :
    Money.Valid ⟨7, "USD"⟩ ∧ Money.Valid ⟨3, "USD"⟩ ∧
    Money.add ⟨7, "USD"⟩ ⟨3, "USD"⟩ = Except.ok ⟨10, "USD"⟩ := by
  refine ⟨⟨by norm_num, by decide⟩, ⟨by norm_num, by decide⟩, ?_⟩
  have h := ((money_add_sub_spec ⟨7, "USD"⟩ ⟨3, "USD"⟩
    ⟨by norm_num, by decide⟩ ⟨by norm_num, by decide⟩).2 rfl).1
  rw [h]
  norm_num

/-- C8 counterexample: `Money` with the 2-letter currency "US" constructs
successfully, so construction does not enforce a 3-letter code. -/
theorem money_two_letter_currency_accepted :
    Money.mk? 1 "US" = Except.ok ⟨1, "US"⟩ ∧ "US".length ≠ 3 := by
  exact ⟨rfl, by decide⟩

/-- C8 amended: Money construction succeeds exactly when the amount is
non-negative and the currency is a non-empty string (the code checks
emptiness only, not a 3-letter format); consequently every successfully
constructed Money has a non-empty currency. -/
theorem money_mk_success_iff (a : ℚ) (c : String) :
    (Money.mk? a c = Except.ok ⟨a, c⟩ ↔ 0 ≤ a ∧ c ≠ "") ∧
    (∀ m, Money.mk? a c = Except.ok m → m.currency ≠ "") := by
  constructor
  · constructor
    · intro h
      unfold Money.mk? at h
      split_ifs at h with h1 h2
      exact ⟨not_lt.mp h1, h2⟩
    · intro h
      exact Money.mk?_ok h.1 h.2
  · intro m h
    unfold Money.mk? at h
    split_ifs at h with h1 h2
    injection h with h2'
    rw [← h2']
    exact h2

/-- Witness for C8's amended statement at a concrete input. -/
theorem money_mk_success_iff_witness :
    ((0:ℚ) ≤ 2 ∧ "EUR" ≠ "") ∧ Money.mk? 2 "EUR" = Except.ok ⟨2, "EUR"⟩ :=
  ⟨⟨by norm_num, by decide⟩,
    (money_mk_success_iff 2 "EUR").1.mpr ⟨by norm_num, by decide⟩⟩

/-- C2: For every recipe and every valid USD mapping of ingredient ids to
current per-unit costs, the computed recipe cost is the sum of
`cost_per_unit × quantity` over the recipe's ingredients; it is Money 0
when the recipe has no ingredients, and an ingredient with no cost record
contributes exactly 0 to the sum (no error, no averaging). -/
theorem recipe_calculate_cost_spec (r : Recipe) (costs : UUID → Option Money)
    (hc : ValidCosts costs) (hq : ∀ ri ∈ r.ingredients, 0 ≤ ri.quantity) :
    Recipe.calculate_cost r costs =
      Except.ok ⟨recipeCostSum costs r.ingredients, "USD"⟩ ∧
    (r.ingredients = [] →
      Recipe.calculate_cost r costs = Except.ok ⟨0, "USD"⟩) ∧
    (∀ ri ∈ r.ingredients, costs ri.ingredient_id = none →
      ingredientContribution costs ri = 0) := by
  refine ⟨Recipe.calculate_cost_eq_sum r hc hq, ?_, ?_⟩
  · intro h
    rw [Recipe.calculate_cost_eq_sum r hc hq, h, recipeCostSum_nil]
  · intro ri _ hnone
    unfold ingredientContribution
    rw [hnone]

/-- Witness for C2: two ingredients with quantities 2 and 3, only the first
has a cost record (5 per unit), giving a recipe cost of 10. -/
theorem recipe_calculate_cost_spec_witness :
    ValidCosts (fun i => if i = 1 then some ⟨5, "USD"⟩ else none) ∧
    Recipe.calculate_cost ⟨"Cake", [⟨0, 1, 2⟩, ⟨0, 2, 3⟩]⟩
        (fun i => if i = 1 then some ⟨5, "USD"⟩ else none) =
      Except.ok ⟨10, "USD"⟩ := by
  have hc : ValidCosts (fun i => if i = 1 then some (⟨5, "USD"⟩ : Money) else none) := by
    intro i c h
    by_cases hi : i = 1
    · subst hi
      simp only [if_pos rfl] at h
      injection h with h'
      rw [← h']
      exact ⟨by norm_num, rfl⟩
    · simp only [if_neg hi] at h
      exact Option.noConfusion h
  refine ⟨hc, ?_⟩
  have h := (recipe_calculate_cost_spec ⟨"Cake", [⟨0, 1, 2⟩, ⟨0, 2, 3⟩]⟩
    (fun i => if i = 1 then some ⟨5, "USD"⟩ else none) hc (by decide)).1
  rw [h]
  norm_num [recipeCostSum, ingredientContribution]

/-- C1: For every product and every valid USD mapping of recipe ids to
recipe costs, `Product.calculate_cost` returns
`(Σ (recipe cost × recipe quantity) + fixed_costs) × (1 + variable%/100) ×
(1 + profit%/100)`, a recipe id absent from the mapping counting as 0; in
particular a product with zero recipes yields
`fixed_costs × (1 + variable%/100) × (1 + profit%/100)`. -/
theorem product_calculate_cost_spec (p : Product)
    (recipe_costs : UUID → Option Money) (hc : ValidCosts recipe_costs)
    (hq : ∀ pr ∈ p.recipes, 0 ≤ pr.quantity)
    (hfc : p.fixed_costs.currency = "USD") (hfa : 0 ≤ p.fixed_costs.amount)
    (hv : 0 ≤ p.variable_costs_percentage)
    (hpm : 0 ≤ p.profit_margin_percentage) :
    Product.calculate_cost p recipe_costs =
      Except.ok ⟨(productRecipeSum recipe_costs p.recipes + p.fixed_costs.amount) *
        (1 + p.variable_costs_percentage / 100) *
        (1 + p.profit_margin_percentage / 100), "USD"⟩ ∧
    (p.recipes = [] →
      Product.calculate_cost p recipe_costs =
        Except.ok ⟨p.fixed_costs.amount * (1 + p.variable_costs_percentage / 100) *
          (1 + p.profit_margin_percentage / 100), "USD"⟩) := by
  have hS : 0 ≤ productRecipeSum recipe_costs p.recipes :=
    productRecipeSum_nonneg hc hq
  have hm1 : 0 ≤ 1 + p.variable_costs_percentage / 100 := by
    have := div_nonneg hv (by norm_num : (0:ℚ) ≤ 100)
    linarith
  have hm2 : 0 ≤ 1 + p.profit_margin_percentage / 100 := by
    have := div_nonneg hpm (by norm_num : (0:ℚ) ≤ 100)
    linarith
  have hfix : p.fixed_costs = (⟨p.fixed_costs.amount, "USD"⟩ : Money) := by
    rw [← hfc]
  have main : Product.calculate_cost p recipe_costs =
      Except.ok ⟨(productRecipeSum recipe_costs p.recipes + p.fixed_costs.amount) *
        (1 + p.variable_costs_percentage / 100) *
        (1 + p.profit_margin_percentage / 100), "USD"⟩ := by
    unfold Product.calculate_cost
    by_cases h : p.recipes = []
    · rw [if_pos h]
      simp only [exceptOkBind]
      rw [@Money.mul_ok p.fixed_costs (1 + p.variable_costs_percentage / 100)
        (by rw [hfc]; exact usd_ne_empty) hfa hm1]
      simp only [exceptOkBind]
      rw [@Money.mul_ok ⟨p.fixed_costs.amount * (1 + p.variable_costs_percentage / 100),
          p.fixed_costs.currency⟩ (1 + p.profit_margin_percentage / 100)
        (show p.fixed_costs.currency ≠ "" by rw [hfc]; exact usd_ne_empty)
        (mul_nonneg hfa hm1) hm2]
      rw [h, productRecipeSum_nil, zero_add, hfc]
    · rw [if_neg h, foldlM_productRecipeCostStep hc p.recipes hq 0 (le_refl 0),
        zero_add]
      simp only [exceptOkBind]
      rw [@Money.add_ok ⟨productRecipeSum recipe_costs p.recipes, "USD"⟩ p.fixed_costs
        hfc.symm usd_ne_empty hS hfa]
      simp only [exceptOkBind]
      rw [@Money.mul_ok
        ⟨productRecipeSum recipe_costs p.recipes + p.fixed_costs.amount, "USD"⟩
        (1 + p.variable_costs_percentage / 100) usd_ne_empty (add_nonneg hS hfa) hm1]
      simp only [exceptOkBind]
      rw [@Money.mul_ok
        ⟨(productRecipeSum recipe_costs p.recipes + p.fixed_costs.amount) *
          (1 + p.variable_costs_percentage / 100), "USD"⟩
        (1 + p.profit_margin_percentage / 100) usd_ne_empty
        (mul_nonneg (add_nonneg hS hfa) hm1) hm2]
  refine ⟨main, ?_⟩
  intro h
  rw [main, h, productRecipeSum_nil, zero_add]

/-- Witness for C1: a product with one recipe (cost 4, quantity 2), fixed
costs 2, 10% variable costs and 50% profit margin: (4·2 + 2) × 1.1 × 1.5 =
16.5. -/
theorem product_calculate_cost_spec_witness :
    ValidCosts (fun i => if i = 7 then some ⟨4, "USD"⟩ else none) ∧
    Product.calculate_cost ⟨"Tart", [⟨7, 2⟩], ⟨2, "USD"⟩, 10, 50⟩
        (fun i => if i = 7 then some ⟨4, "USD"⟩ else none) =
      Except.ok ⟨33/2, "USD"⟩ := by
  have hc : ValidCosts (fun i => if i = 7 then some (⟨4, "USD"⟩ : Money) else none) := by
    intro i c h
    by_cases hi : i = 7
    · subst hi
      simp only [if_pos rfl] at h
      injection h with h'
      rw [← h']
      exact ⟨by norm_num, rfl⟩
    · simp only [if_neg hi] at h
      exact Option.noConfusion h
  refine ⟨hc, ?_⟩
  have h := (product_calculate_cost_spec ⟨"Tart", [⟨7, 2⟩], ⟨2, "USD"⟩, 10, 50⟩
    (fun i => if i = 7 then some ⟨4, "USD"⟩ else none) hc (by decide) rfl
    (by norm_num) (by norm_num) (by norm_num)).1
  rw [h]
  norm_num [productRecipeSum, productRecipeContribution]

/-- C6: For every order whose items carry valid USD prices,
`Order.calculate_total` returns exactly the sum over the items of
`quantity × unit_price` as stored on the item, and Money 0 for an order
with no items. -/
theorem order_calculate_total_spec (o : Order)
    (hv : ∀ item ∈ o.items, item.ValidUSD) :
    Order.calculate_total o = Except.ok ⟨orderTotalSum o.items, "USD"⟩ ∧
    (o.items = [] → Order.calculate_total o = Except.ok ⟨0, "USD"⟩) := by
  have main : Order.calculate_total o = Except.ok ⟨orderTotalSum o.items, "USD"⟩ := by
    unfold Order.calculate_total
    by_cases h : o.items = []
    · rw [if_pos h, h, orderTotalSum_nil]
    · rw [if_neg h, foldlM_orderTotalStep o.items hv 0 (le_refl 0), zero_add]
  exact ⟨main, fun h => by rw [main, h, orderTotalSum_nil]⟩

/-- Witness for C6, the spec's own example: items (2, USD 5) and
(1, USD 3) give a total of USD 13. -/
theorem order_calculate_total_spec_witness :
    (∀ item ∈ [(⟨0, 1, 2, ⟨5, "USD"⟩⟩ : OrderItem), ⟨0, 2, 1, ⟨3, "USD"⟩⟩],
      item.ValidUSD) ∧
    Order.calculate_total
        ⟨"Alice", "alice@example.com",
          [⟨0, 1, 2, ⟨5, "USD"⟩⟩, ⟨0, 2, 1, ⟨3, "USD"⟩⟩],
          OrderStatus.pending, "", 0⟩ =
      Except.ok ⟨13, "USD"⟩ := by
  have hv : ∀ item ∈ [(⟨0, 1, 2, ⟨5, "USD"⟩⟩ : OrderItem), ⟨0, 2, 1, ⟨3, "USD"⟩⟩],
      item.ValidUSD := by
    intro item h
    rcases List.mem_cons.mp h with h1 | h2
    · rw [h1]; exact ⟨by norm_num, by norm_num, rfl⟩
    · rcases List.mem_cons.mp h2 with h3 | h4
      · rw [h3]; exact ⟨by norm_num, by norm_num, rfl⟩
      · cases h4
  refine ⟨hv, ?_⟩
  have h := (order_calculate_total_spec
    ⟨"Alice", "alice@example.com",
      [⟨0, 1, 2, ⟨5, "USD"⟩⟩, ⟨0, 2, 1, ⟨3, "USD"⟩⟩],
      OrderStatus.pending, "", 0⟩ hv).1
  rw [h]
  norm_num [orderTotalSum, orderItemContribution]

lemma confirm_ok_iff (o : Order) :
    (∃ o2, Order.confirm o = Except.ok o2) ↔
      o.status = OrderStatus.pending ∧ o.items ≠ [] := by
  unfold Order.confirm
  split_ifs with h1 h2
  · simp only [not_not] at h1
    constructor
    · intro ⟨o2, h⟩; simp at h
    · intro ⟨hp, _⟩; exact absurd hp h1
  · constructor
    · intro ⟨o2, h⟩; simp at h
    · intro ⟨_, hi⟩; exact absurd h2 hi
  · constructor
    · intro _; exact ⟨not_not.mp h1, h2⟩
    · intro _; exact ⟨_, rfl⟩

lemma confirm_ok_eq (o : Order) :
    ∀ o2, Order.confirm o = Except.ok o2 →
      o2 = { o with status := OrderStatus.confirmed } := by
  unfold Order.confirm
  split_ifs
  · intro o2 h; simp at h
  · intro o2 h; simp at h
  · intro o2 h
    injection h with h'
    exact h'.symm

lemma cancel_ok_iff (o : Order) :
    (∃ o2, Order.cancel o = Except.ok o2) ↔
      o.status ≠ OrderStatus.completed ∧ o.status ≠ OrderStatus.cancelled := by
  unfold Order.cancel
  split_ifs with h1 h2
  · constructor
    · intro ⟨o2, h⟩; simp at h
    · intro ⟨hc, _⟩; exact absurd h1 hc
  · constructor
    · intro ⟨o2, h⟩; simp at h
    · intro ⟨_, hc⟩; exact absurd h2 hc
  · constructor
    · intro _; exact ⟨h1, h2⟩
    · intro _; exact ⟨_, rfl⟩

lemma cancel_ok_eq (o : Order) :
    ∀ o2, Order.cancel o = Except.ok o2 →
      o2 = { o with status := OrderStatus.cancelled } := by
  unfold Order.cancel
  split_ifs
  · intro o2 h; simp at h
  · intro o2 h; simp at h
  · intro o2 h
    injection h with h'
    exact h'.symm

/-- C3: `Order.confirm` succeeds (setting the status to confirmed) exactly
when the order is pending and has at least one item, and `Order.cancel`
succeeds (setting the status to cancelled) exactly when the order is
neither completed nor already cancelled; in every other case the operation
returns an error, and since the source assigns the status only after both
checks, a failing call leaves the order unchanged (here: no new order value
is produced at all). -/
theorem order_confirm_cancel_spec (o : Order) :
    ((∃ o2, Order.confirm o = Except.ok o2) ↔
      o.status = OrderStatus.pending ∧ o.items ≠ []) ∧
    (∀ o2, Order.confirm o = Except.ok o2 →
      o2 = { o with status := OrderStatus.confirmed }) ∧
    ((∃ o2, Order.cancel o = Except.ok o2) ↔
      o.status ≠ OrderStatus.completed ∧ o.status ≠ OrderStatus.cancelled) ∧
    (∀ o2, Order.cancel o = Except.ok o2 →
      o2 = { o with status := OrderStatus.cancelled }) ∧
    (¬(o.status = OrderStatus.pending ∧ o.items ≠ []) →
      ∃ msg, Order.confirm o = Except.error msg) ∧
    ((o.status = OrderStatus.completed ∨ o.status = OrderStatus.cancelled) →
      ∃ msg, Order.cancel o = Except.error msg) := by
  refine ⟨confirm_ok_iff o, confirm_ok_eq o, cancel_ok_iff o, cancel_ok_eq o, ?_, ?_⟩
  · intro hno
    cases hcf : Order.confirm o with
    | error msg => exact ⟨msg, rfl⟩
    | ok o2 => exact absurd ((confirm_ok_iff o).mp ⟨o2, hcf⟩) hno
  · intro hterm
    cases hcc : Order.cancel o with
    | error msg => exact ⟨msg, rfl⟩
    | ok o2 =>
        have h := (cancel_ok_iff o).mp ⟨o2, hcc⟩
        rcases hterm with h1 | h2
        · exact absurd h1 h.1
        · exact absurd h2 h.2

/-- Witness for C3 at a concrete order: a pending one-item order confirms
to status confirmed. -/
theorem order_confirm_cancel_spec_witness :
    ∃ o2, Order.confirm
        ⟨"Bob", "bob@example.com", [⟨0, 1, 1, ⟨5, "USD"⟩⟩],
          OrderStatus.pending, "", 0⟩ = Except.ok o2 :=
  (order_confirm_cancel_spec
    ⟨"Bob", "bob@example.com", [⟨0, 1, 1, ⟨5, "USD"⟩⟩],
      OrderStatus.pending, "", 0⟩).1.mpr ⟨rfl, by simp⟩

/-- C4: the admin `PATCH /api/orders/{id}/status` route assigns the
requested status directly, so for every existing order and every one of the
five status values it succeeds and sets exactly that status, regardless of
the order's current status or item count (the `confirm`/`cancel` guards are
never consulted). -/
theorem update_order_status_spec (o : Order) (st : OrderStatus) :
    update_order_status (some o) st.value = Except.ok { o with status := st } := by
  cases st <;> rfl

lemma updateQuantityFirst_nonneg {iid : UUID} {q : ℚ} (hq0 : 0 ≤ q) :
    ∀ {l l2 : List RecipeIngredient}, updateQuantityFirst iid q l = some l2 →
      (∀ x ∈ l, 0 ≤ x.quantity) → ∀ x ∈ l2, 0 ≤ x.quantity := by
  intro l
  induction l with
  | nil => intro l2 h; cases h
  | cons ri rest ih =>
      intro l2 h hl x hx
      unfold updateQuantityFirst at h
      by_cases hid : ri.ingredient_id = iid
      · rw [if_pos hid] at h
        injection h with h'
        subst h'
        rcases List.mem_cons.mp hx with hx1 | hx2
        · rw [hx1]; exact hq0
        · exact hl x (List.mem_cons_of_mem ri hx2)
      · rw [if_neg hid] at h
        cases hrest : updateQuantityFirst iid q rest with
        | none => rw [hrest] at h; cases h
        | some rest2 =>
            rw [hrest] at h
            injection h with h'
            subst h'
            rcases List.mem_cons.mp hx with hx1 | hx2
            · rw [hx1]; exact hl ri (List.mem_cons_self ri rest)
            · exact ih hrest (fun y hy => hl y (List.mem_cons_of_mem ri hy)) x hx2

lemma updateQuantityFirst_sum_mono {costs : UUID → Option Money}
    (hc : ValidCosts costs) {iid : UUID} {q1 q2 : ℚ} (h12 : q1 ≤ q2) :
    ∀ {l l1 l2 : List RecipeIngredient},
      updateQuantityFirst iid q1 l = some l1 →
      updateQuantityFirst iid q2 l = some l2 →
      recipeCostSum costs l1 ≤ recipeCostSum costs l2 := by
  intro l
  induction l with
  | nil => intro l1 l2 h; cases h
  | cons ri rest ih =>
      intro l1 l2 h1 h2
      unfold updateQuantityFirst at h1 h2
      by_cases hid : ri.ingredient_id = iid
      · rw [if_pos hid] at h1 h2
        injection h1 with h1'
        injection h2 with h2'
        subst h1'
        subst h2'
        rw [recipeCostSum_cons, recipeCostSum_cons]
        have hcontrib : ingredientContribution costs { ri with quantity := q1 } ≤
            ingredientContribution costs { ri with quantity := q2 } := by
          unfold ingredientContribution
          dsimp only
          cases hcost : costs ri.ingredient_id with
          | none => exact le_refl 0
          | some c => exact mul_le_mul_of_nonneg_left h12 (hc _ _ hcost).1
        linarith
      · rw [if_neg hid] at h1 h2
        cases hr1 : updateQuantityFirst iid q1 rest with
        | none => rw [hr1] at h1; cases h1
        | some rest1 =>
            rw [hr1] at h1
            injection h1 with h1'
            subst h1'
            cases hr2 : updateQuantityFirst iid q2 rest with
            | none => rw [hr2] at h2; cases h2
            | some rest2 =>
                rw [hr2] at h2
                injection h2 with h2'
                subst h2'
                rw [recipeCostSum_cons, recipeCostSum_cons]
                have := ih hr1 hr2
                linarith

lemma update_ingredient_quantity_ok {r : Recipe} {iid : UUID} {q : ℚ}
    {r2 : Recipe} (h : Recipe.update_ingredient_quantity r iid q = Except.ok r2) :
    ∃ l, updateQuantityFirst iid q r.ingredients = some l ∧
      r2 = { r with ingredients := l } := by
  unfold Recipe.update_ingredient_quantity at h
  cases hu : updateQuantityFirst iid q r.ingredients with
  | none => rw [hu] at h; simp at h
  | some l =>
      rw [hu] at h
      refine ⟨l, rfl, ?_⟩
      injection h with h'
      exact h'.symm

/-- C7: increasing the quantity of any ingredient of a recipe (through the
source's own `update_ingredient_quantity`) never decreases the recipe cost
computed by `Recipe.calculate_cost`, for any valid non-negative USD cost
mapping: the cost is monotonically non-decreasing in each ingredient
quantity. -/
theorem recipe_cost_monotone (r : Recipe) (costs : UUID → Option Money)
    (iid : UUID) (q1 q2 : ℚ) (hq1 : 0 < q1) (h12 : q1 ≤ q2)
    (hc : ValidCosts costs) (hq : ∀ ri ∈ r.ingredients, 0 ≤ ri.quantity)
    (r1 r2 : Recipe)
    (hr1 : Recipe.update_ingredient_quantity r iid q1 = Except.ok r1)
    (hr2 : Recipe.update_ingredient_quantity r iid q2 = Except.ok r2)
    (m1 m2 : Money)
    (hm1 : Recipe.calculate_cost r1 costs = Except.ok m1)
    (hm2 : Recipe.calculate_cost r2 costs = Except.ok m2) :
    m1.amount ≤ m2.amount := by
  obtain ⟨l1, hu1, he1⟩ := update_ingredient_quantity_ok hr1
  obtain ⟨l2, hu2, he2⟩ := update_ingredient_quantity_ok hr2
  subst he1
  subst he2
  have hql1 : ∀ x ∈ l1, 0 ≤ x.quantity :=
    updateQuantityFirst_nonneg (le_of_lt hq1) hu1 hq
  have hql2 : ∀ x ∈ l2, 0 ≤ x.quantity :=
    updateQuantityFirst_nonneg (le_of_lt (lt_of_lt_of_le hq1 h12)) hu2 hq
  rw [Recipe.calculate_cost_eq_sum _ hc hql1] at hm1
  rw [Recipe.calculate_cost_eq_sum _ hc hql2] at hm2
  injection hm1 with hm1'
  injection hm2 with hm2'
  rw [← hm1', ← hm2']
  exact updateQuantityFirst_sum_mono hc h12 hu1 hu2

/-- Witness for C7 at a concrete recipe: raising the flour quantity from 2
to 5 (ingredient cost 3 per unit) does not decrease the cost. -/
theorem recipe_cost_monotone_witness :
    Recipe.update_ingredient_quantity ⟨"Bread", [⟨0, 1, 2⟩]⟩ 1 2 =
      Except.ok ⟨"Bread", [⟨0, 1, 2⟩]⟩ ∧
    Recipe.update_ingredient_quantity ⟨"Bread", [⟨0, 1, 2⟩]⟩ 1 5 =
      Except.ok ⟨"Bread", [⟨0, 1, 5⟩]⟩ ∧
    (6:ℚ) ≤ 15 := by
  refine ⟨rfl, rfl, ?_⟩
  have hc : ValidCosts (fun i => if i = 1 then some (⟨3, "USD"⟩ : Money) else none) := by
    intro i c h
    by_cases hi : i = 1
    · subst hi
      simp only [if_pos rfl] at h
      injection h with h'
      rw [← h']
      exact ⟨by norm_num, rfl⟩
    · simp only [if_neg hi] at h
      exact Option.noConfusion h
  have hmono := recipe_cost_monotone ⟨"Bread", [⟨0, 1, 2⟩]⟩
    (fun i => if i = 1 then some ⟨3, "USD"⟩ else none) 1 2 5
    (by norm_num) (by norm_num) hc (by decide)
    ⟨"Bread", [⟨0, 1, 2⟩]⟩ ⟨"Bread", [⟨0, 1, 5⟩]⟩ rfl rfl
    ⟨6, "USD"⟩ ⟨15, "USD"⟩ ?_ ?_
  · exact hmono
  · have h := (Recipe.calculate_cost_eq_sum ⟨"Bread", [⟨0, 1, 2⟩]⟩ hc (by decide))
    rw [h]
    norm_num [recipeCostSum, ingredientContribution]
  · have h := (Recipe.calculate_cost_eq_sum ⟨"Bread", [⟨0, 1, 5⟩]⟩ hc (by decide))
    rw [h]
    norm_num [recipeCostSum, ingredientContribution]

/-- C9: `get_password_hash` applies the 72-byte truncation policy: whenever
a password's UTF-8 encoding exceeds 72 bytes, the string handed to the
underlying (opaque) salted hash is the ignore-errors decoding of the first
72 bytes of that encoding; hence two passwords whose encodings both exceed
72 bytes and agree on their first 72 bytes are hashed from the identical
input. -/
theorem get_password_hash_truncation (p1 p2 : List Char)
    (h1 : (utf8Encode p1).length > 72) (h2 : (utf8Encode p2).length > 72)
    (hagree : (utf8Encode p1).take 72 = (utf8Encode p2).take 72) :
    get_password_hash_input p1 = utf8DecodeIgnore ((utf8Encode p1).take 72) ∧
    get_password_hash_input p1 = get_password_hash_input p2 := by
  unfold get_password_hash_input
  simp only []
  rw [if_pos h1, if_pos h2, hagree]
  exact ⟨rfl, rfl⟩

/-- Witness for C9: 80 times 'a' and 72 times 'a' followed by "bcdefgh"
agree on their first 72 UTF-8 bytes, so the hashed input coincides. -/
theorem get_password_hash_truncation_witness :
    (utf8Encode (List.replicate 80 'a')).length > 72 ∧
    (utf8Encode (List.replicate 72 'a' ++ ['b', 'c', 'd', 'e', 'f', 'g', 'h'])).length > 72 ∧
    get_password_hash_input (List.replicate 80 'a') =
      get_password_hash_input
        (List.replicate 72 'a' ++ ['b', 'c', 'd', 'e', 'f', 'g', 'h']) := by
  refine ⟨by decide, by decide, ?_⟩
  exact (get_password_hash_truncation (List.replicate 80 'a')
    (List.replicate 72 'a' ++ ['b', 'c', 'd', 'e', 'f', 'g', 'h'])
    (by decide) (by decide) (by decide)).2

/-- C10: whenever `RegisterUserUseCase.execute` succeeds, the user entity it
created and stored has role `user` — never `admin` — regardless of every
field of the request and of the repository environment: registration cannot
create an admin account. -/
theorem register_user_role_spec (deps : RegisterUserDeps)
    (dto : RegisterRequestDTO) (u : User)
    (h : RegisterUserUseCase.execute deps dto = Except.ok u) :
    u.role = UserRole.user ∧ u.role.value = "user" := by
  unfold RegisterUserUseCase.execute User.mk? at h
  split_ifs at h
  injection h with h'
  rw [← h']
  exact ⟨rfl, rfl⟩

/-- Witness for C10 at a concrete registration request. -/
theorem register_user_role_spec_witness :
    RegisterUserUseCase.execute
        ⟨fun _ => false, fun _ => false, fun _ => "hashed"⟩
        ⟨"a@b.c", "alice", "password1", none⟩ =
      Except.ok ⟨"a@b.c", "alice", "hashed", UserRole.user, true, none⟩ ∧
    UserRole.user = UserRole.user :=
  ⟨rfl, (register_user_role_spec ⟨fun _ => false, fun _ => false, fun _ => "hashed"⟩
    ⟨"a@b.c", "alice", "password1", none⟩
    ⟨"a@b.c", "alice", "hashed", UserRole.user, true, none⟩ rfl).1⟩

end PastryJoy
